import Mathlib

/-!
Verification development for the feedtranslator repository.

Shallow embedding of the core pipeline:
* `src/lib/cloudcart-parser.ts` — language detection, extraction data model,
  deduplication, reinsertion (`applyTranslations`);
* `src/lib/industries.ts` — the process-wide industry configuration table;
* `src/lib/translator.ts` — glossary resolution, batching, retrying
  translation orchestration (`translateTexts` / `translateBatch`);
* `src/app/api/translate/route.ts` — the streaming `POST` handler.

Strings are modelled with Lean `String` (a list of Unicode scalar values);
the JavaScript `Map` (insertion-ordered, set-overwrites-in-place) is modelled
as an association list with explicit `mapSet` / `mapLookup` operations; the
external Anthropic client is modelled as an oracle giving the outcome of each
attempt; `setTimeout` waits are recorded as a list of delay durations.
-/

namespace FeedTranslator

/-! ## Language detector (`cloudcart-parser.ts`, `containsSourceLanguage`) -/

/-- The set of code points removed by JavaScript `String.prototype.trim`
(ECMA-262 `TrimString`: WhiteSpace and LineTerminator). -/
def isJsWhitespace (c : Char) : Bool :=
  decide (c.toNat ∈ [0x9, 0xA, 0xB, 0xC, 0xD, 0x20, 0xA0, 0x1680,
    0x2028, 0x2029, 0x202F, 0x205F, 0x3000, 0xFEFF])
  || decide (0x2000 ≤ c.toNat ∧ c.toNat ≤ 0x200A)

/-- Embedding of `containsSourceLanguage` (cloudcart-parser.ts lines 66–96).
`!text || text.trim().length === 0` holds exactly when every character is
JavaScript whitespace; each regex character-class test `/[\uXXXX-\uYYYY]/.test(text)`
holds exactly when some character of the text lies in the code-point range. -/
def containsSourceLanguage (text : String) (sourceLang : String) : Bool :=
  if text == "" || text.data.all isJsWhitespace then false
  else if sourceLang == "bg" || sourceLang == "ru" || sourceLang == "sr"
      || sourceLang == "mk" || sourceLang == "uk" then
    text.data.any fun c => decide (0x400 ≤ c.toNat ∧ c.toNat ≤ 0x4FF)
  else if sourceLang == "el" then
    text.data.any fun c => decide (0x370 ≤ c.toNat ∧ c.toNat ≤ 0x3FF)
  else if sourceLang == "zh" then
    text.data.any fun c => decide (0x4E00 ≤ c.toNat ∧ c.toNat ≤ 0x9FFF)
  else if sourceLang == "ja" then
    text.data.any fun c => decide ((0x3040 ≤ c.toNat ∧ c.toNat ≤ 0x309F)
      ∨ (0x30A0 ≤ c.toNat ∧ c.toNat ≤ 0x30FF)
      ∨ (0x4E00 ≤ c.toNat ∧ c.toNat ≤ 0x9FFF))
  else if sourceLang == "ko" then
    text.data.any fun c => decide (0xAC00 ≤ c.toNat ∧ c.toNat ≤ 0xD7AF)
  else if sourceLang == "ar" then
    text.data.any fun c => decide (0x600 ≤ c.toNat ∧ c.toNat ≤ 0x6FF)
  else if sourceLang == "he" then
    text.data.any fun c => decide (0x590 ≤ c.toNat ∧ c.toNat ≤ 0x5FF)
  else true

/-- The closed set of non-Latin source-language codes together with the
Unicode code-point blocks the source associates with each of them. -/
def scriptBlocks : List (String × List (Nat × Nat)) :=
  [("bg", [(0x400, 0x4FF)]), ("ru", [(0x400, 0x4FF)]), ("sr", [(0x400, 0x4FF)]),
   ("mk", [(0x400, 0x4FF)]), ("uk", [(0x400, 0x4FF)]),
   ("el", [(0x370, 0x3FF)]),
   ("zh", [(0x4E00, 0x9FFF)]),
   ("ja", [(0x3040, 0x309F), (0x30A0, 0x30FF), (0x4E00, 0x9FFF)]),
   ("ko", [(0xAC00, 0xD7AF)]),
   ("ar", [(0x600, 0x6FF)]),
   ("he", [(0x590, 0x5FF)])]

/-! ## Data model (`cloudcart-parser.ts`) -/

/-- Embedding of the `TranslatableItem` interface (field kinds as strings). -/
structure TranslatableItem where
  path : String
  text : String
  field : String
  productId : String
  productTitle : String
deriving DecidableEq

/-- Result entry of `deduplicateItems`: `{ text, fields, count }`.
The JavaScript `Set` of field kinds is modelled as its insertion-ordered
duplicate-free element list. -/
structure DedupedEntry where
  text : String
  fields : List String
  count : Nat
deriving DecidableEq

/-- JavaScript `Set.prototype.add`: append the element if not present. -/
def addFieldJs (fs : List String) (f : String) : List String :=
  if f ∈ fs then fs else fs ++ [f]

/-- One iteration of the loop in `deduplicateItems` (lines 300–308):
if the map has an entry for `item.text`, mutate it in place
(`existing.fields.add`, `existing.count++`); otherwise append a fresh entry. -/
def dedupStep (acc : List DedupedEntry) (item : TranslatableItem) : List DedupedEntry :=
  if acc.any (fun e => e.text == item.text) then
    acc.map fun e =>
      if e.text == item.text then
        { e with fields := addFieldJs e.fields item.field, count := e.count + 1 }
      else e
  else
    acc ++ [⟨item.text, [item.field], 1⟩]

/-- Embedding of `deduplicateItems` (cloudcart-parser.ts lines 295–315). -/
def deduplicateItems (items : List TranslatableItem) : List DedupedEntry :=
  items.foldl dedupStep []

/-- Property-side helper: the distinct values of a list in first-seen order. -/
def firstOccurrences (l : List String) : List String :=
  l.foldl (fun acc t => if t ∈ acc then acc else acc ++ [t]) []

/-! ## Reinsertion engine (`cloudcart-parser.ts`, `applyTranslations`) -/

/-- Replace every left-to-right non-overlapping occurrence of `pat` in the
remaining input by `rep` — the semantics of JavaScript
`result.split(original).join(translated)` for a non-empty `original`.
The fuel argument (initialised to the input length) only justifies
termination; one character is consumed per step at minimum. -/
def replaceAllGo (pat rep : List Char) : Nat → List Char → List Char
  | _, [] => []
  | 0, l => l
  | fuel + 1, c :: rest =>
    if pat ≠ [] ∧ pat.isPrefixOf (c :: rest) then
      rep ++ replaceAllGo pat rep fuel ((c :: rest).drop pat.length)
    else
      c :: replaceAllGo pat rep fuel rest

/-- JavaScript `s.split(pat).join(rep)`.  For the degenerate empty pattern,
`split("")` yields the list of single characters and `join` interleaves
`rep` between them. -/
def jsSplitJoin (s pat rep : String) : String :=
  if pat = "" then ⟨List.intercalate rep.data (s.data.map fun c => [c])⟩
  else ⟨replaceAllGo pat.data rep.data s.data.length s.data⟩

/-- The comparator of `applyTranslations`:
`(a, b) => b[0].length - a[0].length` orders by descending original length. -/
def byDescKeyLength (a b : String × String) : Prop :=
  b.1.length ≤ a.1.length

instance : DecidableRel byDescKeyLength := fun a b =>
  inferInstanceAs (Decidable (b.1.length ≤ a.1.length))

instance : IsTotal (String × String) byDescKeyLength :=
  ⟨fun a b => Nat.le_total b.1.length a.1.length⟩

instance : IsTrans (String × String) byDescKeyLength :=
  ⟨fun _ _ _ h1 h2 => Nat.le_trans h2 h1⟩

/-- `[...translations.entries()].sort((a, b) => b[0].length - a[0].length)`:
a stable sort by descending original-text length (JavaScript
`Array.prototype.sort` is stable; insertion sort realises that). -/
def sortedEntries (translations : List (String × String)) : List (String × String) :=
  translations.insertionSort byDescKeyLength

/-- The body of the replacement loop: skip when original equals translated,
otherwise `result = result.split(original).join(translated)`. -/
def applyEntry (result : String) (entry : String × String) : String :=
  if entry.1 = entry.2 then result
  else jsSplitJoin result entry.1 entry.2

/-- Embedding of `applyTranslations` (cloudcart-parser.ts lines 271–289);
the translation `Map` is passed as its insertion-ordered entry list. -/
def applyTranslations (xmlContent : String) (translations : List (String × String)) : String :=
  (sortedEntries translations).foldl applyEntry xmlContent

/-! ## Industry configuration (`industries.ts`) -/

/-- Embedding of the `IndustryConfig` interface; the `glossary` record is
modelled as its insertion-ordered key/value list. -/
structure IndustryConfig where
  id : String
  name : String
  icon : String
  description : String
  context : String
  glossary : List (String × String)
  exampleTerms : List String
deriving DecidableEq

/-- Embedding of the process-wide `industries` configuration table
(industries.ts lines 11–184). -/
def industries : List IndustryConfig :=
  [{ id := "luxury-watches-jewellery",
     name := "Luxury Watches & Jewellery",
     icon := "💎",
     description := "High-end timepieces and fine jewellery. Uses horological and gemological terminology.",
     context := "You are a professional translator specialising in high-end luxury watches and fine jewellery.\nUse precise horological terminology (e.g. \"movement\" not \"mechanism\", \"complication\" not \"feature\", \"case\" not \"body\", \"bezel\" not \"frame\", \"dial\" not \"face\", \"power reserve\" not \"battery life\", \"calibre\" for movement reference).\nUse precise gemological terminology (e.g. \"ct\" for carat weight, \"brilliant-cut\" not \"shiny cut\", \"pavé\" for pave setting, \"cabochon\" for domed polish, \"baguette\" for rectangular cut).\nMetal types: always use \"18K White Gold\", \"18K Rose Gold\", \"18K Yellow Gold\", \"925 Sterling Silver\", \"Stainless Steel\", \"Palladium\", \"Platinum\".\nJewellery types: \"Ring\", \"Earrings\", \"Necklace\", \"Bracelet\", \"Pendant\", \"Brooch\", \"Cufflinks\".\nMaintain an elevated, refined tone befitting a luxury maison. British English spelling (jewellery, colour, centre).",
     glossary := [("Бижута", "Jewellery"), ("Часовници", "Watches"), ("Пръстен", "Ring"),
       ("Обеци", "Earrings"), ("Колие", "Necklace"), ("Гривна", "Bracelet"),
       ("Висулка", "Pendant"), ("Брошка", "Brooch"), ("Диаманти", "Diamonds"),
       ("Сапфири", "Sapphires"), ("Рубини", "Rubies"), ("Смарагди", "Emeralds"),
       ("18К бяло злато", "18K White Gold"), ("18К розово злато", "18K Rose Gold"),
       ("18К жълто злато", "18K Yellow Gold"), ("Неръждаема стомана", "Stainless Steel"),
       ("карата", "ct"), ("Автоматичен", "Automatic"), ("Ръчно навиване", "Hand-Winding"),
       ("Водоустойчивост", "Water Resistance"), ("Механизъм", "Movement"),
       ("Корпус", "Case"), ("Безел", "Bezel"), ("Циферблат", "Dial"),
       ("Каишка", "Strap"), ("Стъкло", "Crystal")],
     exampleTerms := ["Безел → Bezel", "карата → ct", "Механизъм → Movement",
       "18К розово злато → 18K Rose Gold"] },
   { id := "fashion-apparel",
     name := "Fashion & Apparel",
     icon := "👗",
     description := "Clothing, footwear, and fashion accessories. Uses textile and fashion industry terminology.",
     context := "You are a professional translator specialising in fashion and apparel.\nUse standard fashion industry terminology (e.g. \"silhouette\" not \"shape\", \"drape\" not \"hang\", \"fabrication\" not \"material type\", \"colourway\" not \"colour version\").\nFabric types: use proper textile names (e.g. \"charmeuse\", \"organza\", \"twill\", \"jersey knit\", \"French terry\").\nSizing: maintain original sizing notation.\nMaintain a contemporary, fashion-forward tone. British English spelling.",
     glossary := [("Дрехи", "Clothing"), ("Обувки", "Footwear"), ("Аксесоари", "Accessories"),
       ("Рокля", "Dress"), ("Панталон", "Trousers"), ("Риза", "Shirt"), ("Яке", "Jacket"),
       ("Палто", "Coat"), ("Памук", "Cotton"), ("Коприна", "Silk"), ("Вълна", "Wool"),
       ("Полиестер", "Polyester")],
     exampleTerms := ["Рокля → Dress", "Коприна → Silk", "Яке → Jacket", "Палто → Coat"] },
   { id := "electronics-tech",
     name := "Electronics & Technology",
     icon := "📱",
     description := "Consumer electronics, gadgets, and tech accessories. Uses technical specification terminology.",
     context := "You are a professional translator specialising in consumer electronics and technology.\nUse precise technical terminology (e.g. \"display\" not \"screen\" for specs, \"processor\" not \"chip\", \"storage capacity\" not \"memory size\", \"connectivity\" not \"connections\").\nSpecifications: maintain exact values, units, and model numbers untranslated.\nUse clear, concise product language typical of tech retail. British English spelling.",
     glossary := [("Електроника", "Electronics"), ("Смартфон", "Smartphone"),
       ("Лаптоп", "Laptop"), ("Таблет", "Tablet"), ("Слушалки", "Headphones"),
       ("Батерия", "Battery"), ("Дисплей", "Display"), ("Процесор", "Processor"),
       ("Памет", "Memory")],
     exampleTerms := ["Дисплей → Display", "Процесор → Processor", "Батерия → Battery",
       "Слушалки → Headphones"] },
   { id := "home-furniture",
     name := "Home & Furniture",
     icon := "🏠",
     description := "Home decor, furniture, and interior design products. Uses interior design terminology.",
     context := "You are a professional translator specialising in home furnishings and interior design.\nUse interior design terminology (e.g. \"upholstery\" not \"covering\", \"veneer\" not \"thin wood layer\", \"patina\" not \"aged look\", \"bespoke\" for custom-made).\nMaterials: use proper names (e.g. \"solid oak\", \"Italian marble\", \"brushed nickel\", \"hand-blown glass\").\nMaintain a sophisticated, lifestyle-oriented tone. British English spelling.",
     glossary := [("Мебели", "Furniture"), ("Маса", "Table"), ("Стол", "Chair"),
       ("Диван", "Sofa"), ("Легло", "Bed"), ("Шкаф", "Cabinet"), ("Лампа", "Lamp"),
       ("Килим", "Rug"), ("Дърво", "Wood")],
     exampleTerms := ["Мебели → Furniture", "Диван → Sofa", "Килим → Rug", "Дърво → Wood"] },
   { id := "beauty-cosmetics",
     name := "Beauty & Cosmetics",
     icon := "💄",
     description := "Skincare, makeup, fragrances, and beauty products. Uses cosmetics industry terminology.",
     context := "You are a professional translator specialising in beauty, skincare, and cosmetics.\nUse beauty industry terminology (e.g. \"formulation\" not \"recipe\", \"pigmentation\" not \"colour intensity\", \"luminosity\" not \"glow\", \"complexion\" not \"skin colour\").\nIngredients: maintain INCI names unchanged, translate common names alongside.\nMaintain an aspirational, sensorial tone. British English spelling.",
     glossary := [("Козметика", "Cosmetics"), ("Грим", "Makeup"), ("Парфюм", "Fragrance"),
       ("Крем", "Cream"), ("Серум", "Serum"), ("Маска", "Mask"), ("Червило", "Lipstick"),
       ("Сенки", "Eyeshadow")],
     exampleTerms := ["Парфюм → Fragrance", "Серум → Serum", "Червило → Lipstick",
       "Козметика → Cosmetics"] },
   { id := "custom",
     name := "Custom Industry",
     icon := "⚙️",
     description := "Define your own terminology context. Provide a custom prompt describing your industry.",
     context := "",
     glossary := [],
     exampleTerms := [] }]

/-- Embedding of `getIndustry` (industries.ts lines 186–188): a reference
into the shared `industries` array. -/
def getIndustry (id : String) : Option IndustryConfig :=
  industries.find? fun i => i.id == id

/-! ## Translation orchestrator (`translator.ts`) -/

def BATCH_SIZE : Nat := 40

def MAX_RETRIES : Nat := 3

/-- JavaScript `Map` lookup (`Map.prototype.get`), over the insertion-ordered
entry list: the value of the unique entry with the given key, if any. -/
def mapLookup (m : List (String × String)) (k : String) : Option String :=
  (m.find? fun p => p.1 == k).map fun p => p.2

/-- JavaScript `Map.prototype.set`: overwrite the value in place if the key
exists, otherwise append a new entry. -/
def mapSet (m : List (String × String)) (k v : String) : List (String × String) :=
  if m.any fun p => p.1 == k then
    m.map fun p => if p.1 == k then (k, v) else p
  else
    m ++ [(k, v)]

/-- Embedding of the `TranslationBatch` interface. -/
structure TranslationBatch where
  texts : List String
  fields : List (List String)
deriving DecidableEq

/-- Outcome of one `client.messages.create` attempt, as seen after the
response-handling steps of `translateBatch`: the call may throw
(`apiError`), return a non-text content block (`nonText`), return text that
fails `JSON.parse` after fence stripping (`parseFailure`), or yield a parsed
string array (`parsed`). -/
inductive AttemptOutcome where
  | apiError (msg : String)
  | nonText
  | parseFailure (msg : String)
  | parsed (translated : List String)

/-- The body of one attempt of `translateBatch` (translator.ts lines
174–205): every failure kind becomes a thrown error; a parsed array of the
wrong length throws; otherwise the per-batch result map pairs
`batch.texts[i]` with `translated[i]`. -/
def attemptBatch (texts : List String) (o : AttemptOutcome) :
    Except String (List (String × String)) :=
  match o with
  | .apiError msg => .error msg
  | .nonText => .error "Unexpected response type"
  | .parseFailure msg => .error msg
  | .parsed translated =>
    if translated.length ≠ texts.length then
      .error ("Expected " ++ toString texts.length ++ " translations, got "
        ++ toString translated.length)
    else
      .ok (texts.zip translated)

/-- Observable result of `translateBatch`: the returned map or thrown error,
the number of provider calls made, and the `setTimeout` backoff delays
(milliseconds) awaited between attempts, in order. -/
structure BatchRun where
  result : Except String (List (String × String))
  attempts : Nat
  delays : List Nat

/-- The retry loop of `translateBatch` (translator.ts lines 171–214):
`for (attempt = 0; attempt < MAX_RETRIES; attempt++)`, remembering the last
error and sleeping `2000 * (attempt + 1)` ms before each retry; after the
loop the last error is rethrown.  `fuel` counts the remaining iterations
(`MAX_RETRIES - attempt`). -/
def translateBatchLoop (oracle : Nat → AttemptOutcome) (texts : List String) :
    Nat → Nat → Option String → BatchRun
  | _, 0, lastError =>
    ⟨.error (lastError.getD "Translation failed after retries"), 0, []⟩
  | attempt, fuel + 1, _ =>
    match attemptBatch texts (oracle attempt) with
    | .ok res => ⟨.ok res, 1, []⟩
    | .error e =>
      let rest := translateBatchLoop oracle texts (attempt + 1) fuel (some e)
      if attempt < MAX_RETRIES - 1 then
        ⟨rest.result, rest.attempts + 1, 2000 * (attempt + 1) :: rest.delays⟩
      else
        ⟨rest.result, rest.attempts + 1, rest.delays⟩

/-- Embedding of `translateBatch`, with the external client abstracted as an
oracle giving the outcome of each attempt. -/
def translateBatch (oracle : Nat → AttemptOutcome) (texts : List String) : BatchRun :=
  translateBatchLoop oracle texts 0 MAX_RETRIES none

/-- The glossary pass of `translateTexts` (translator.ts lines 78–83):
`const glossaryMatch = industry.glossary[item.text]; if (glossaryMatch) ...`
— a record lookup whose result is truthy exactly when it is a non-empty
string. -/
def glossaryLoop (glossary : List (String × String)) :
    List (String × List String) → List (String × String) → List (String × String)
  | [], translations => translations
  | item :: rest, translations =>
    match mapLookup glossary item.1 with
    | some v =>
      if v == "" then glossaryLoop glossary rest translations
      else glossaryLoop glossary rest (mapSet translations item.1 v)
    | none => glossaryLoop glossary rest translations

/-- The translation table after the glossary pass. -/
def glossaryTable (glossary : List (String × String))
    (texts : List (String × List String)) : List (String × String) :=
  glossaryLoop glossary texts []

/-- `const remaining = texts.filter((t) => !translations.has(t.text))`. -/
def remainingEntries (glossary : List (String × String))
    (texts : List (String × List String)) : List (String × List String) :=
  texts.filter fun t => !(mapLookup (glossaryTable glossary texts) t.1).isSome

/-- The chunking loop `for (let i = 0; i < remaining.length; i += BATCH_SIZE)`
(translator.ts lines 94–100), written with a fuel argument so that it
evaluates by kernel reduction; `fuel` is initialised to the list length. -/
def chunkGo : Nat → List (String × List String) → List (List (String × List String))
  | _, [] => []
  | 0, _ => []
  | fuel + 1, l => l.take BATCH_SIZE :: chunkGo fuel (l.drop BATCH_SIZE)

/-- The successive `remaining.slice(i, i + BATCH_SIZE)` slices. -/
def chunkEntries (l : List (String × List String)) : List (List (String × List String)) :=
  chunkGo l.length l

/-- The batch list built by `translateTexts`: each slice projected to its
texts and its field lists. -/
def mkBatches (remaining : List (String × List String)) : List TranslationBatch :=
  (chunkEntries remaining).map fun ch => ⟨ch.map fun t => t.1, ch.map fun t => t.2⟩

/-- Observable result of `translateTexts`: the returned table or thrown
error, the `onProgress` invocations `(completed, total)` in order, and the
total number of provider calls. -/
structure TranslateRun where
  result : Except String (List (String × String))
  progress : List (Nat × Nat)
  calls : Nat

/-- The sequential batch loop of `translateTexts` (translator.ts lines
106–121): each batch is translated with `translateBatch`; a thrown error
propagates immediately; on success the batch pairs are merged into the
table and `onProgress(completed, total)` fires.  `bi` is the index of the
current batch, used to address the oracle. -/
def processBatches (oracle : Nat → Nat → AttemptOutcome) (total : Nat) :
    List TranslationBatch → Nat → List (String × String) → Nat → TranslateRun
  | [], _, translations, _ => ⟨.ok translations, [], 0⟩
  | b :: rest, bi, translations, completed =>
    let br := translateBatch (oracle bi) b.texts
    match br.result with
    | .error e => ⟨.error e, [], br.attempts⟩
    | .ok pairs =>
      let translations := pairs.foldl (fun m p => mapSet m p.1 p.2) translations
      let completed := completed + b.texts.length
      let r := processBatches oracle total rest (bi + 1) translations completed
      ⟨r.result, (completed, total) :: r.progress, br.attempts + r.calls⟩

/-- Embedding of `translateTexts` (translator.ts lines 66–124): glossary
pass, early return when nothing remains, then the initial `onProgress` call
followed by the sequential batch loop. -/
def translateTexts (texts : List (String × List String))
    (glossary : List (String × String)) (oracle : Nat → Nat → AttemptOutcome) :
    TranslateRun :=
  let translations := glossaryTable glossary texts
  let remaining := remainingEntries glossary texts
  if remaining.length == 0 then
    ⟨.ok translations, [(texts.length, texts.length)], 0⟩
  else
    let batches := mkBatches remaining
    let completed := texts.length - remaining.length
    let r := processBatches oracle texts.length batches 0 translations completed
    ⟨r.result, (completed, texts.length) :: r.progress, r.calls⟩

/-! ## Streaming endpoint (`route.ts`) -/

/-- Server-sent events of the translate endpoint. -/
inductive StreamEvent where
  | status (message : String)
  | stats (totalProducts totalItems uniqueItems : Nat)
  | progress (completed total percent : Nat)
  | complete (translatedXml : String) (translationCount : Nat) (message : String)
  | error (message : String)
deriving DecidableEq

/-- Terminal events: `complete` and `error`. -/
def StreamEvent.isTerminal : StreamEvent → Bool
  | .complete _ _ _ => true
  | .error _ => true
  | _ => false

/-- `Math.round((completed / total) * 100)` for natural inputs with
`total > 0`: round-half-up of `100 * completed / total`. -/
def jsRoundPercent (completed total : Nat) : Nat :=
  (200 * completed + total) / (2 * total)

/-- The request form fields read by the handler. `none` models an absent
(`null`) form value. -/
structure PostRequest where
  file : Option String
  industryId : Option String
  sourceLang : Option String
  targetLang : Option String
  apiKey : Option String
  customContext : Option String

/-- JavaScript falsiness of a nullable string: `null` and `""`. -/
def strFalsy : Option String → Bool
  | none => true
  | some s => s == ""

/-- Environment of one request: the form data, the items returned by
`extractTranslatables` on the uploaded feed (the extractor itself is not
re-modelled: only `items.length` and the item fields flow onward), and the
provider oracle (batch index → attempt index → outcome). -/
structure PostEnv where
  req : PostRequest
  extractedItems : List TranslatableItem
  oracle : Nat → Nat → AttemptOutcome

/-- What the handler does to the stream controller: the events passed to
`controller.enqueue`, in order, and the number of `controller.close()`
invocations.  The three early-return failure paths call `close()` explicitly
(route.ts lines 39, 46, 78) and the `finally` block (line 134) closes again,
so those paths invoke `close()` twice; the remaining paths close only in
`finally`. -/
structure PostResult where
  events : List StreamEvent
  closeCalls : Nat

/-- State-passing rendering of route.ts lines 43–53 as they act on the
process-wide configuration table: `getIndustry` aliases an element of the
shared `industries` array and `industry.context = customContext` writes
through that alias, so the first table entry whose id matches gets its
`context` field overwritten. -/
def setContextOfShared : List IndustryConfig → String → String → List IndustryConfig
  | [], _, _ => []
  | i :: rest, id, cc =>
    if i.id == id then { i with context := cc } :: rest
    else i :: setContextOfShared rest id cc

/-- The effect of one request's custom-context handling on the shared
`industries` table (route.ts lines 43–53). -/
def applyCustomContextToTable (table : List IndustryConfig) (industryId : String)
    (customContext : Option String) : List IndustryConfig :=
  match table.find? fun i => i.id == industryId with
  | none => table
  | some _ =>
    if !strFalsy customContext && industryId == "custom" then
      setContextOfShared table industryId (customContext.getD "")
    else table

/-- Embedding of the `POST` handler (route.ts lines 13–146): the event
sequence it enqueues and how often it calls `controller.close()`.  The
missing-fields, unknown-industry and zero-items paths close explicitly and
then again in `finally` (two calls); the provider-failure, internal-error
and success paths close only in `finally` (one call). -/
def POST (env : PostEnv) : PostResult :=
  let req := env.req
  if req.file.isNone || strFalsy req.industryId || strFalsy req.sourceLang
      || strFalsy req.targetLang || strFalsy req.apiKey then
    ⟨[.error "Missing required fields"], 2⟩
  else
    let industryId := req.industryId.getD ""
    match getIndustry industryId with
    | none => ⟨[.error "Unknown industry"], 2⟩
    | some ind0 =>
      let industry :=
        if !strFalsy req.customContext && industryId == "custom" then
          { ind0 with context := req.customContext.getD "" }
        else ind0
      let xmlContent := req.file.getD ""
      let items := env.extractedItems
      let ev0 : List StreamEvent :=
        [.status "Reading XML feed...", .status "Parsing feed structure..."]
      if items.length == 0 then
        ⟨ev0 ++ [.error "No translatable content found. The feed may already be translated or the source language is incorrect."],
         2⟩
      else
        let unique := deduplicateItems items
        let totalProducts := ((items.map fun i => i.productId).dedup).length
        let ev1 := ev0 ++
          [.stats totalProducts items.length unique.length,
           .status ("Found " ++ toString unique.length ++ " unique texts to translate ("
             ++ toString items.length ++ " total occurrences across "
             ++ toString totalProducts ++ " products)...")]
        let run := translateTexts (unique.map fun e => (e.text, e.fields))
          industry.glossary env.oracle
        let progressEvents := run.progress.map fun p =>
          StreamEvent.progress p.1 p.2 (jsRoundPercent p.1 p.2)
        match run.result with
        | .error e =>
          ⟨ev1 ++ progressEvents ++ [.error ("Translation failed: " ++ e)], 1⟩
        | .ok table =>
          ⟨ev1 ++ progressEvents ++
            [.status "Applying translations to feed...",
             .complete (applyTranslations xmlContent table) table.length
               ("Successfully translated " ++ toString table.length ++ " unique texts.")],
           1⟩

/-- Final state of the output channel as the consumer sees it. -/
inductive ChannelState where
  | closed
  | errored
deriving DecidableEq

/-- Delivery semantics of the WHATWG stream for a handler run: a single
`close()` lets the queue drain and the channel close, delivering every
enqueued event.  A second `close()` throws (close was already requested),
rejecting `start()`; the machinery then errors the stream unless the queue
had already drained (in which case the stream is closed and the error is a
no-op).  Erroring resets the queue, so the `undrained` events still queued —
the tail of the enqueued sequence — are discarded and never delivered. -/
def streamOutcome (r : PostResult) (undrained : Nat) : List StreamEvent × ChannelState :=
  if r.closeCalls ≤ 1 then (r.events, .closed)
  else if undrained == 0 then (r.events, .closed)
  else (r.events.take (r.events.length - undrained), .errored)

/-! ## Reinsertion claims -/

/-- Claim C7: `applyTranslations` processes the table entries in descending
order of original-text length (a permutation of the table, pairwise ordered
by `byDescKeyLength`), an entry whose original equals its translation leaves
the document untouched, and with both "Gold" and "18K Gold" as keys every
occurrence of "18K Gold" is substituted by its own translation before "Gold"
is substituted, so the longer occurrence is not corrupted by the shorter
entry's replacement. -/
theorem c7_longest_match_first :
    (∀ tr : List (String × String),
        (sortedEntries tr).Pairwise byDescKeyLength ∧ (sortedEntries tr).Perm tr)
    ∧ (∀ (doc : String) (p : String × String), p.1 = p.2 → applyEntry doc p = doc)
    ∧ applyTranslations "<category>18K Gold</category><material>Gold</material>"
        [("Gold", "X"), ("18K Gold", "Y")]
      = "<category>Y</category><material>X</material>" := by
  refine ⟨fun tr => ⟨?_, ?_⟩, ?_, ?_⟩
  · exact List.sorted_insertionSort byDescKeyLength tr
  · exact List.perm_insertionSort byDescKeyLength tr
  · intro doc p h
    simp [applyEntry, h]
  · decide

/-- Witness for C7 at concrete inputs: an entry mapping "Gold" to itself is
skipped. -/
theorem c7_longest_match_first_witness :
    ("Gold", "Gold").1 = ("Gold", "Gold").2
    ∧ applyEntry "<material>Gold</material>" ("Gold", "Gold") = "<material>Gold</material>" :=
  ⟨rfl, c7_longest_match_first.2.1 "<material>Gold</material>" ("Gold", "Gold") rfl⟩

/-- Claim C10: text produced by an earlier (longer-original) replacement is
itself subject to substitution by later (shorter-original) entries: for the
document "ab" and the table mapping "ab" to "x" and "x" to "y", the result
is "y", not "x". -/
theorem c10_translated_text_rewritten :
    applyTranslations "ab" [("ab", "x"), ("x", "y")] = "y"
    ∧ applyTranslations "ab" [("ab", "x"), ("x", "y")] ≠ "x" := by
  constructor
  · decide
  · decide

/-! ## Shared-configuration mutation (claim C1) -/

/-- Claim C1 (refuting evidence): handling a translation request that
supplies a custom prompt-context override for the `custom` profile does
mutate the process-wide configuration table — after the handler's
custom-context step, the shared `custom` profile's `context` field holds the
request's override instead of its initial empty string, so the table is not
left unchanged. -/
theorem c1_custom_context_mutates_shared_table :
    ((applyCustomContextToTable industries "custom"
        (some "Translate for a pet supplies store.")).find? fun i => i.id == "custom").map
        IndustryConfig.context = some "Translate for a pet supplies store."
    ∧ ((industries.find? fun i => i.id == "custom").map IndustryConfig.context) = some ""
    ∧ applyCustomContextToTable industries "custom"
        (some "Translate for a pet supplies store.") ≠ industries := by
  have h1 : ((applyCustomContextToTable industries "custom"
      (some "Translate for a pet supplies store.")).find? fun i => i.id == "custom").map
      IndustryConfig.context = some "Translate for a pet supplies store." := by decide
  have h2 : ((industries.find? fun i => i.id == "custom").map IndustryConfig.context)
      = some "" := by decide
  refine ⟨h1, h2, fun h => ?_⟩
  rw [h] at h1
  exact absurd (h1.symm.trans h2) (by decide)

/-! ## Language-detector claim (C8) -/

theorem isJsWhitespace_toNat (c : Char) (h : isJsWhitespace c = true) :
    c.toNat = 0x9 ∨ c.toNat = 0xA ∨ c.toNat = 0xB ∨ c.toNat = 0xC ∨ c.toNat = 0xD
    ∨ c.toNat = 0x20 ∨ c.toNat = 0xA0 ∨ c.toNat = 0x1680
    ∨ (0x2000 ≤ c.toNat ∧ c.toNat ≤ 0x200A) ∨ c.toNat = 0x2028 ∨ c.toNat = 0x2029
    ∨ c.toNat = 0x202F ∨ c.toNat = 0x205F ∨ c.toNat = 0x3000 ∨ c.toNat = 0xFEFF := by
  simp only [isJsWhitespace, Bool.or_eq_true, decide_eq_true_eq, List.mem_cons,
    List.mem_singleton, List.not_mem_nil, or_false] at h
  omega

theorem guard_any_iff (text : String) (p : Char → Bool)
    (hp : ∀ c, isJsWhitespace c = true → p c = false) :
    ((if text == "" || text.data.all isJsWhitespace then false else text.data.any p) = true
      ↔ ∃ c ∈ text.data, p c = true) := by
  split
  · rename_i hguard
    simp only [Bool.false_eq_true, false_iff]
    rintro ⟨c, hc, hpc⟩
    rcases Bool.or_eq_true .. |>.mp hguard with hempty | hall
    · have : text = "" := by
        simpa using hempty
      subst this
      simp at hc
    · have hws := List.all_eq_true.mp hall c hc
      rw [hp c hws] at hpc
      exact Bool.false_ne_true hpc
  · exact List.any_eq_true

/-- Claim C8: for a source-language code in the closed non-Latin set,
`containsSourceLanguage` returns true iff the text contains a code point in
that language's script blocks; empty or whitespace-only text always yields
false; any code outside the closed set yields true for non-whitespace
text. -/
theorem c8_script_detection (text lang : String) :
    (text.data.all isJsWhitespace = true → containsSourceLanguage text lang = false)
    ∧ (∀ rs, (lang, rs) ∈ scriptBlocks →
        (containsSourceLanguage text lang = true ↔
          ∃ c ∈ text.data, ∃ r ∈ rs, r.1 ≤ c.toNat ∧ c.toNat ≤ r.2))
    ∧ (lang ∉ scriptBlocks.map Prod.fst → text.data.all isJsWhitespace = false →
        containsSourceLanguage text lang = true) := by
  refine ⟨?_, ?_, ?_⟩
  · intro h
    simp [containsSourceLanguage, h]
  · intro rs hmem
    simp only [scriptBlocks, List.mem_cons, List.not_mem_nil, or_false,
      Prod.mk.injEq] at hmem
    rcases hmem with ⟨h1, h2⟩ | ⟨h1, h2⟩ | ⟨h1, h2⟩ | ⟨h1, h2⟩ | ⟨h1, h2⟩ | ⟨h1, h2⟩
      | ⟨h1, h2⟩ | ⟨h1, h2⟩ | ⟨h1, h2⟩ | ⟨h1, h2⟩ | ⟨h1, h2⟩ <;> subst h1 <;> subst h2 <;>
    · refine (guard_any_iff text _ ?_).trans (by simp +contextual [imp_and]; try tauto)
      intro c hws
      have := isJsWhitespace_toNat c hws
      simp only [decide_eq_false_iff_not]
      omega
  · intro hout hws
    have hne : ¬(text == "") = true := by
      intro h
      have : text = "" := by simpa using h
      subst this
      simp at hws
    simp only [scriptBlocks, List.map_cons, List.map_nil, List.mem_cons,
      List.not_mem_nil, or_false, not_or] at hout
    obtain ⟨n1, n2, n3, n4, n5, n6, n7, n8, n9, n10, n11⟩ := hout
    simp [containsSourceLanguage, hws, hne, n1, n2, n3, n4, n5, n6, n7, n8, n9, n10, n11]

/-- Witness for C8: "Привет" with source language "ru" is detected (the
Cyrillic block applies), via the characterisation of the main theorem. -/
theorem c8_script_detection_witness :
    containsSourceLanguage "Привет" "ru" = true :=
  ((c8_script_detection "Привет" "ru").2.1 [(0x400, 0x4FF)]
      (by simp [scriptBlocks])).mpr
    ⟨'П', by decide, (0x400, 0x4FF), by decide, by decide⟩

/-! ## Deduplication claim (C9) -/

theorem firstOccurrences_go_mem (l : List String) (acc : List String) (t : String) :
    t ∈ l.foldl (fun acc t => if t ∈ acc then acc else acc ++ [t]) acc
      ↔ t ∈ acc ∨ t ∈ l := by
  induction l generalizing acc with
  | nil => simp
  | cons x xs ih =>
    simp only [List.foldl_cons, ih, List.mem_cons]
    split
    · rename_i hx
      constructor
      · rintro (h | h)
        · exact Or.inl h
        · exact Or.inr (Or.inr h)
      · rintro (h | h | h)
        · exact Or.inl h
        · exact Or.inl (h ▸ hx)
        · exact Or.inr h
    · simp only [List.mem_append, List.mem_singleton]
      tauto

theorem firstOccurrences_go_nodup (l : List String) (acc : List String)
    (h : acc.Nodup) : (l.foldl (fun acc t => if t ∈ acc then acc else acc ++ [t]) acc).Nodup := by
  induction l generalizing acc with
  | nil => simpa
  | cons x xs ih =>
    simp only [List.foldl_cons]
    split
    · exact ih acc h
    · rename_i hx
      exact ih _ (by simp [List.nodup_append, h, hx])

theorem firstOccurrences_mem (l : List String) (t : String) :
    t ∈ firstOccurrences l ↔ t ∈ l := by
  rw [firstOccurrences, firstOccurrences_go_mem]
  simp

theorem firstOccurrences_nodup (l : List String) : (firstOccurrences l).Nodup :=
  firstOccurrences_go_nodup l [] List.nodup_nil

theorem firstOccurrences_append_singleton (l : List String) (t : String) :
    firstOccurrences (l ++ [t])
      = if t ∈ firstOccurrences l then firstOccurrences l else firstOccurrences l ++ [t] := by
  rw [firstOccurrences, List.foldl_append]
  rfl

/-- Membership in the JavaScript-`Set` field list after `add`. -/
theorem addFieldJs_mem (fs : List String) (f g : String) :
    g ∈ addFieldJs fs f ↔ g ∈ fs ∨ g = f := by
  rw [addFieldJs]
  split
  · rename_i h
    constructor
    · exact Or.inl
    · rintro (hg | rfl)
      · exact hg
      · exact h
  · simp

/-- Invariant of the `deduplicateItems` loop relating the accumulator to the
prefix of items already processed. -/
def DedupInv (processed : List TranslatableItem) (acc : List DedupedEntry) : Prop :=
  acc.map DedupedEntry.text = firstOccurrences (processed.map TranslatableItem.text)
  ∧ (acc.map DedupedEntry.count).sum = processed.length
  ∧ ∀ e ∈ acc,
      e.count = processed.countP (fun it => it.text == e.text)
      ∧ ∀ f, f ∈ e.fields ↔ ∃ it ∈ processed, it.text = e.text ∧ it.field = f

theorem countP_text_eq_count_map (acc : List DedupedEntry) (t : String) :
    acc.countP (fun e => e.text == t) = (acc.map DedupedEntry.text).count t := by
  rw [List.count, List.countP_map]
  rfl

theorem sum_map_update (acc : List DedupedEntry) (t : String) (f : String) :
    ((acc.map fun e =>
        if e.text == t then
          { e with fields := addFieldJs e.fields f, count := e.count + 1 }
        else e).map DedupedEntry.count).sum
      = (acc.map DedupedEntry.count).sum + acc.countP (fun e => e.text == t) := by
  induction acc with
  | nil => simp
  | cons e es ih =>
    simp only [List.map_cons, List.sum_cons, List.countP_cons]
    rw [ih]
    by_cases h : e.text = t
    · rw [if_pos (by simpa using h)]
      simp [h]
      omega
    · rw [if_neg (by simpa using h)]
      simp [h]
      omega

theorem dedupStep_inv (processed : List TranslatableItem) (acc : List DedupedEntry)
    (item : TranslatableItem) (h : DedupInv processed acc) :
    DedupInv (processed ++ [item]) (dedupStep acc item) := by
  obtain ⟨hkeys, hsum, hent⟩ := h
  rw [dedupStep]
  split
  · rename_i hany
    have hin : item.text ∈ acc.map DedupedEntry.text := by
      rcases List.any_eq_true.mp hany with ⟨e, he, hbe⟩
      exact List.mem_map.mpr ⟨e, he, by simpa using hbe⟩
    have hkeys2 : (acc.map fun e =>
        if e.text == item.text then
          { e with fields := addFieldJs e.fields item.field, count := e.count + 1 }
        else e).map DedupedEntry.text = acc.map DedupedEntry.text := by
      rw [List.map_map]
      refine List.map_congr_left fun e _ => ?_
      by_cases he : e.text = item.text
      · rw [Function.comp_apply, if_pos (by simpa using he)]
      · rw [Function.comp_apply, if_neg (by simpa using he)]
    refine ⟨?_, ?_, ?_⟩
    · rw [hkeys2, hkeys, List.map_append, List.map_singleton,
        firstOccurrences_append_singleton, if_pos (hkeys ▸ hin)]
    · rw [sum_map_update, hsum, countP_text_eq_count_map, hkeys,
        List.count_eq_one_of_mem (firstOccurrences_nodup _) (hkeys ▸ hin)]
      simp
    · intro e' he'
      rcases List.mem_map.mp he' with ⟨e, he, rfl⟩
      by_cases heqt : e.text = item.text
      · obtain ⟨hc, hf⟩ := hent e he
        rw [if_pos (by simpa using heqt)]
        constructor
        · simp [List.countP_append, hc, List.countP_cons, heqt]
        · intro f
          rw [addFieldJs_mem, hf f]
          constructor
          · rintro (⟨it, hit, h1, h2⟩ | rfl)
            · exact ⟨it, List.mem_append_left _ hit, h1, h2⟩
            · exact ⟨item, List.mem_append_right _ (by simp), heqt.symm, rfl⟩
          · rintro ⟨it, hit, h1, h2⟩
            rcases List.mem_append.mp hit with hit | hit
            · exact Or.inl ⟨it, hit, h1, h2⟩
            · rcases List.mem_singleton.mp hit with rfl
              exact Or.inr h2.symm
      · obtain ⟨hc, hf⟩ := hent e he
        rw [if_neg (by simpa using heqt)]
        constructor
        · simp [List.countP_append, hc, List.countP_cons,
            show ¬(item.text == e.text) = true by simpa using fun h => heqt h.symm]
        · intro f
          rw [hf f]
          constructor
          · rintro ⟨it, hit, h1, h2⟩
            exact ⟨it, List.mem_append_left _ hit, h1, h2⟩
          · rintro ⟨it, hit, h1, h2⟩
            rcases List.mem_append.mp hit with hit | hit
            · exact ⟨it, hit, h1, h2⟩
            · rcases List.mem_singleton.mp hit with rfl
              exact absurd h1.symm heqt
  · rename_i hany
    have hnotin : item.text ∉ acc.map DedupedEntry.text := by
      intro hmem
      rcases List.mem_map.mp hmem with ⟨e, he, hte⟩
      exact hany (List.any_eq_true.mpr ⟨e, he, by simpa using hte⟩)
    have hnotproc : item.text ∉ processed.map TranslatableItem.text := by
      rw [← firstOccurrences_mem, ← hkeys]
      exact hnotin
    have hcount0 : processed.countP (fun it => it.text == item.text) = 0 := by
      rw [List.countP_eq_zero]
      intro it hit hbe
      exact hnotproc (List.mem_map.mpr ⟨it, hit, by simpa using hbe⟩)
    refine ⟨?_, ?_, ?_⟩
    · rw [List.map_append, List.map_append, hkeys, List.map_singleton, List.map_singleton,
        firstOccurrences_append_singleton, if_neg (hkeys ▸ hnotin)]
    · simp [hsum]
    · intro e' he'
      rcases List.mem_append.mp he' with he' | he'
      · obtain ⟨hc, hf⟩ := hent e' he'
        have hne : ¬item.text = e'.text := by
          intro h
          exact hnotin (h ▸ List.mem_map.mpr ⟨e', he', rfl⟩)
        constructor
        · simp [List.countP_append, hc, List.countP_cons,
            show ¬(item.text == e'.text) = true by simpa using hne]
        · intro f
          rw [hf f]
          constructor
          · rintro ⟨it, hit, h1, h2⟩
            exact ⟨it, List.mem_append_left _ hit, h1, h2⟩
          · rintro ⟨it, hit, h1, h2⟩
            rcases List.mem_append.mp hit with hit | hit
            · exact ⟨it, hit, h1, h2⟩
            · rcases List.mem_singleton.mp hit with rfl
              exact absurd h1 hne
      · rcases List.mem_singleton.mp he' with rfl
        constructor
        · simp [List.countP_append, hcount0, List.countP_cons]
        · intro f
          simp only [List.mem_singleton]
          constructor
          · rintro rfl
            exact ⟨item, List.mem_append_right _ (by simp), rfl, rfl⟩
          · rintro ⟨it, hit, h1, h2⟩
            rcases List.mem_append.mp hit with hit | hit
            · exact absurd (List.mem_map.mpr ⟨it, hit, h1⟩) hnotproc
            · rcases List.mem_singleton.mp hit with rfl
              exact h2.symm

theorem dedup_loop_inv (rest processed : List TranslatableItem) (acc : List DedupedEntry)
    (h : DedupInv processed acc) :
    DedupInv (processed ++ rest) (rest.foldl dedupStep acc) := by
  induction rest generalizing processed acc with
  | nil => simpa
  | cons item rest ih =>
    rw [List.foldl_cons, show processed ++ item :: rest = (processed ++ [item]) ++ rest by simp]
    exact ih (processed ++ [item]) (dedupStep acc item) (dedupStep_inv processed acc item h)

theorem deduplicateItems_inv (items : List TranslatableItem) :
    DedupInv items (deduplicateItems items) := by
  have := dedup_loop_inv items [] [] ⟨rfl, rfl, by simp⟩
  simpa [deduplicateItems] using this

/-- Claim C9: `deduplicateItems` yields one entry per distinct text in
first-seen order, its counts sum to the number of input items, the output's
distinct texts equal the input's, and each entry's field list is exactly the
set of field kinds of the items sharing that text (with the count equal to
the number of such items). -/
theorem c9_deduplicate (items : List TranslatableItem) :
    (deduplicateItems items).map DedupedEntry.text
      = firstOccurrences (items.map TranslatableItem.text)
    ∧ ((deduplicateItems items).map DedupedEntry.text).Nodup
    ∧ ((deduplicateItems items).map DedupedEntry.count).sum = items.length
    ∧ (∀ t, t ∈ (deduplicateItems items).map DedupedEntry.text
        ↔ t ∈ items.map TranslatableItem.text)
    ∧ ∀ e ∈ deduplicateItems items,
        e.count = items.countP (fun it => it.text == e.text)
        ∧ ∀ f, f ∈ e.fields ↔ ∃ it ∈ items, it.text = e.text ∧ it.field = f := by
  obtain ⟨hkeys, hsum, hent⟩ := deduplicateItems_inv items
  refine ⟨hkeys, ?_, hsum, ?_, hent⟩
  · rw [hkeys]
    exact firstOccurrences_nodup _
  · intro t
    rw [hkeys, firstOccurrences_mem]

/-- Witness for C9 on a concrete item list: two items share the text "T",
one has "U". -/
theorem c9_deduplicate_witness :
    ((deduplicateItems [⟨"p1", "T", "title", "1", "x"⟩, ⟨"p2", "T", "category", "1", "x"⟩,
        ⟨"p3", "U", "title", "2", "y"⟩]).map DedupedEntry.count).sum = 3 :=
  (c9_deduplicate _).2.2.1

/-! ## Retry-policy claims (C5, C3) -/

theorem translateBatchLoop_attempts_le (oracle : Nat → AttemptOutcome) (texts : List String)
    (fuel : Nat) :
    ∀ (attempt : Nat) (le : Option String),
      (translateBatchLoop oracle texts attempt fuel le).attempts ≤ fuel := by
  induction fuel with
  | zero =>
    intro attempt le
    simp [translateBatchLoop]
  | succ f ih =>
    intro attempt le
    rw [translateBatchLoop]
    cases h : attemptBatch texts (oracle attempt) with
    | ok res => simp
    | error e =>
      have := ih (attempt + 1) (some e)
      simp only [h, apply_ite BatchRun.attempts]
      split <;> omega

/-- Claim C5: each batch is attempted at most `MAX_RETRIES` (3) times, every
failure kind shares the one retry budget (the hypothesis only requires the
earlier attempts to fail, with any error), the delay before retry `k + 1` is
`2000 * (k + 1)` ms counted from zero-based attempt `k` (2 s then 4 s,
linear), and an attempt succeeding within the budget makes `translateBatch`
return that result after exactly the backoff waits of the preceding failed
attempts. -/
theorem c5_retry_policy (oracle : Nat → AttemptOutcome) (texts : List String) :
    (translateBatch oracle texts).attempts ≤ MAX_RETRIES
    ∧ ∀ k, k < MAX_RETRIES →
        ∀ res, (∀ k', k' < k → ∃ e, attemptBatch texts (oracle k') = .error e) →
          attemptBatch texts (oracle k) = .ok res →
          translateBatch oracle texts
            = ⟨.ok res, k + 1, (List.range k).map fun j => 2000 * (j + 1)⟩ := by
  constructor
  · exact translateBatchLoop_attempts_le oracle texts MAX_RETRIES 0 none
  · intro k hk res hprev hok
    have hk3 : k < 3 := hk
    interval_cases k
    · simp [translateBatch, translateBatchLoop, hok]
    · obtain ⟨e0, h0⟩ := hprev 0 (by omega)
      simp [translateBatch, translateBatchLoop, h0, hok, MAX_RETRIES,
        List.range_succ]
    · obtain ⟨e0, h0⟩ := hprev 0 (by omega)
      obtain ⟨e1, h1⟩ := hprev 1 (by omega)
      simp [translateBatch, translateBatchLoop, h0, h1, hok, MAX_RETRIES,
        List.range_succ]

/-- Witness for C5: a batch failing with a provider error, then a parse
failure, then succeeding on the third attempt returns the third attempt's
result after waits of 2000 ms and 4000 ms. -/
theorem c5_retry_policy_witness :
    translateBatch
        (fun k => if k == 0 then .apiError "boom" else
          if k == 1 then .parseFailure "bad json" else .parsed ["T"])
        ["t"]
      = ⟨.ok [("t", "T")], 3, [2000, 4000]⟩ := by
  have h := (c5_retry_policy
      (fun k => if k == 0 then .apiError "boom" else
        if k == 1 then .parseFailure "bad json" else .parsed ["T"])
      ["t"]).2 2 (by decide) [("t", "T")]
      (fun k' hk' => by
        interval_cases k'
        · exact ⟨"boom", rfl⟩
        · exact ⟨"bad json", rfl⟩)
      rfl
  simpa using h

/-- If every attempt of the budget fails, `translateBatch` rethrows the last
observed error after both backoff waits. -/
theorem translateBatch_all_fail (oracle : Nat → AttemptOutcome) (texts : List String)
    (e0 e1 e2 : String)
    (h0 : attemptBatch texts (oracle 0) = .error e0)
    (h1 : attemptBatch texts (oracle 1) = .error e1)
    (h2 : attemptBatch texts (oracle 2) = .error e2) :
    translateBatch oracle texts = ⟨.error e2, 3, [2000, 4000]⟩ := by
  simp [translateBatch, translateBatchLoop, h0, h1, h2, MAX_RETRIES]

theorem processBatches_error (oracle : Nat → Nat → AttemptOutcome) (total : Nat)
    (bs : List TranslationBatch) (e : String) :
    ∀ (j bi : Nat) (translations : List (String × String)) (completed : Nat)
      (hj : j < bs.length),
      (∀ b (hb : b < j),
        ∃ t, (translateBatch (oracle (bi + b)) (bs.get ⟨b, hb.trans hj⟩).texts).result = .ok t) →
      (translateBatch (oracle (bi + j)) (bs.get ⟨j, hj⟩).texts).result = .error e →
      (processBatches oracle total bs bi translations completed).result = .error e := by
  induction bs with
  | nil =>
    intro j bi translations completed hj
    exact absurd hj (by simp)
  | cons b rest ih =>
    intro j bi translations completed hj hprev herr
    cases j with
    | zero =>
      have herr' : (translateBatch (oracle (bi + 0)) b.texts).result = .error e := herr
      rw [Nat.add_zero] at herr'
      rw [processBatches]
      simp [herr']
    | succ j' =>
      have hj' : j' < rest.length := by
        simp only [List.length_cons] at hj
        omega
      obtain ⟨t0, h0⟩ := hprev 0 (by omega)
      have h0' : (translateBatch (oracle (bi + 0)) b.texts).result = .ok t0 := h0
      rw [Nat.add_zero] at h0'
      rw [processBatches]
      simp only [h0']
      refine ih j' (bi + 1) _ _ hj' ?_ ?_
      · intro b' hb'
        obtain ⟨t, ht⟩ := hprev (b' + 1) (by omega)
        refine ⟨t, ?_⟩
        rw [show bi + 1 + b' = bi + (b' + 1) by omega]
        exact ht
      · rw [show bi + 1 + j' = bi + (j' + 1) by omega]
        exact herr

/-- Claim C3: if every attempt of the budget for one batch fails (all
earlier batches having succeeded), `translateTexts` rejects with the last
observed error of that batch, and no translation table is returned at all —
the failed batch contributes nothing to any returned table. -/
theorem c3_exhausted_retries_fail_whole_operation
    (texts : List (String × List String)) (glossary : List (String × String))
    (oracle : Nat → Nat → AttemptOutcome) (j : Nat)
    (hj : j < (mkBatches (remainingEntries glossary texts)).length)
    (e0 e1 e2 : String)
    (hprev : ∀ b (hb : b < j),
      ∃ t, (translateBatch (oracle b)
        ((mkBatches (remainingEntries glossary texts)).get ⟨b, hb.trans hj⟩).texts).result
          = .ok t)
    (h0 : attemptBatch ((mkBatches (remainingEntries glossary texts)).get ⟨j, hj⟩).texts
        (oracle j 0) = .error e0)
    (h1 : attemptBatch ((mkBatches (remainingEntries glossary texts)).get ⟨j, hj⟩).texts
        (oracle j 1) = .error e1)
    (h2 : attemptBatch ((mkBatches (remainingEntries glossary texts)).get ⟨j, hj⟩).texts
        (oracle j 2) = .error e2) :
    (translateTexts texts glossary oracle).result = .error e2
    ∧ ∀ table, (translateTexts texts glossary oracle).result ≠ .ok table := by
  have hne : ¬((remainingEntries glossary texts).length == 0) = true := by
    intro h
    have hlen : (remainingEntries glossary texts).length = 0 := by simpa using h
    rw [List.length_eq_zero.mp hlen] at hj
    simp [mkBatches, chunkEntries, chunkGo] at hj
  have hmain : (translateTexts texts glossary oracle).result = .error e2 := by
    rw [translateTexts]
    simp only [hne, if_false, Bool.false_eq_true]
    exact processBatches_error oracle texts.length _ e2 j 0 _ _ hj
      (by simpa using hprev)
      (by
        have := translateBatch_all_fail (oracle j)
          ((mkBatches (remainingEntries glossary texts)).get ⟨j, hj⟩).texts e0 e1 e2 h0 h1 h2
        simpa using congrArg BatchRun.result this)
  exact ⟨hmain, fun table h => by rw [hmain] at h; exact Except.noConfusion h⟩

/-- Witness for C3: a single one-text batch whose provider call fails on all
three attempts makes the whole operation fail with the third attempt's
error. -/
theorem c3_exhausted_retries_witness :
    (translateTexts [("a", ["f"])] []
        (fun _ k => .apiError ("boom" ++ toString k))).result = .error "boom2" :=
  (c3_exhausted_retries_fail_whole_operation [("a", ["f"])] []
      (fun _ k => .apiError ("boom" ++ toString k)) 0 (by decide)
      "boom0" "boom1" "boom2"
      (fun b hb => absurd hb (by omega)) rfl rfl rfl).1

/-! ## Lemmas about the JavaScript-map model -/

theorem find?_map_update_self (m : List (String × String)) (k v : String)
    (hany : (m.any fun p => p.1 == k) = true) :
    (m.map fun p => if p.1 == k then (k, v) else p).find? (fun p => p.1 == k)
      = some (k, v) := by
  induction m with
  | nil => simp at hany
  | cons q qs ih =>
    by_cases hq : (q.1 == k) = true
    · rw [List.map_cons, if_pos hq,
        @List.find?_cons_of_pos _ (fun p => p.1 == k) (k, v) _ (by simp)]
    · have hany' : (qs.any fun p => p.1 == k) = true := by
        simp only [List.any_cons, Bool.or_eq_true] at hany
        tauto
      rw [List.map_cons, if_neg hq, @List.find?_cons_of_neg _ (fun p => p.1 == k) q _ hq]
      exact ih hany'

theorem find?_append_self (m : List (String × String)) (k v : String) :
    (m.any fun p => p.1 == k) = false →
    (m ++ [(k, v)]).find? (fun p => p.1 == k) = some (k, v) := by
  induction m with
  | nil =>
    intro _
    rw [List.nil_append,
      @List.find?_cons_of_pos _ (fun p => p.1 == k) (k, v) _ (by simp)]
  | cons q qs ih =>
    intro hany
    simp only [List.any_cons, Bool.or_eq_false_iff] at hany
    rw [List.cons_append,
      @List.find?_cons_of_neg _ (fun p => p.1 == k) q _ (by simp [hany.1])]
    exact ih hany.2

theorem find?_map_update_ne (m : List (String × String)) (k v k' : String) (h : k' ≠ k) :
    (m.map fun p => if p.1 == k then (k, v) else p).find? (fun p => p.1 == k')
      = m.find? (fun p => p.1 == k') := by
  induction m with
  | nil => simp
  | cons q qs ih =>
    by_cases hq : (q.1 == k) = true
    · have hqk : q.1 = k := by simpa using hq
      have h1 : ¬((k, v).1 == k') = true :=
        fun he => h ((by simpa using he : k = k')).symm
      have h2 : ¬(q.1 == k') = true :=
        fun he => h ((by simpa [hqk] using he : k = k')).symm
      rw [List.map_cons, if_pos hq,
        @List.find?_cons_of_neg _ (fun p => p.1 == k') (k, v) _ h1,
        @List.find?_cons_of_neg _ (fun p => p.1 == k') q _ h2]
      exact ih
    · rw [List.map_cons, if_neg hq]
      by_cases hq' : (q.1 == k') = true
      · rw [@List.find?_cons_of_pos _ (fun p => p.1 == k') q _ hq',
          @List.find?_cons_of_pos _ (fun p => p.1 == k') q _ hq']
      · rw [@List.find?_cons_of_neg _ (fun p => p.1 == k') q _ hq',
          @List.find?_cons_of_neg _ (fun p => p.1 == k') q _ hq']
        exact ih

theorem find?_append_ne (m : List (String × String)) (k v k' : String) (h : k' ≠ k) :
    (m ++ [(k, v)]).find? (fun p => p.1 == k') = m.find? (fun p => p.1 == k') := by
  induction m with
  | nil =>
    rw [List.nil_append,
      @List.find?_cons_of_neg _ (fun p => p.1 == k') (k, v) _
        (fun he => h ((by simpa using he : k = k')).symm),
      List.find?_nil]
  | cons q qs ih =>
    rw [List.cons_append]
    by_cases hq : (q.1 == k') = true
    · rw [@List.find?_cons_of_pos _ (fun p => p.1 == k') q _ hq,
        @List.find?_cons_of_pos _ (fun p => p.1 == k') q _ hq]
    · rw [@List.find?_cons_of_neg _ (fun p => p.1 == k') q _ hq,
        @List.find?_cons_of_neg _ (fun p => p.1 == k') q _ hq]
      exact ih

theorem mapLookup_mapSet_self (m : List (String × String)) (k v : String) :
    mapLookup (mapSet m k v) k = some v := by
  rw [mapSet]
  split
  · rename_i hany
    rw [mapLookup, find?_map_update_self m k v hany]
    rfl
  · rename_i hany
    rw [mapLookup, find?_append_self m k v (Bool.of_not_eq_true hany)]
    rfl

theorem mapLookup_mapSet_ne (m : List (String × String)) (k v k' : String) (h : k' ≠ k) :
    mapLookup (mapSet m k v) k' = mapLookup m k' := by
  rw [mapSet]
  split
  · rw [mapLookup, find?_map_update_ne m k v k' h, mapLookup]
  · rw [mapLookup, find?_append_ne m k v k' h, mapLookup]

theorem mapLookup_foldl_mapSet_isSome (ps : List (String × String)) :
    ∀ (m : List (String × String)) (k : String),
      (mapLookup m k).isSome = true →
      (mapLookup (ps.foldl (fun m p => mapSet m p.1 p.2) m) k).isSome = true := by
  induction ps with
  | nil =>
    intro m k h
    simpa using h
  | cons p ps ih =>
    intro m k h
    rw [List.foldl_cons]
    refine ih _ k ?_
    by_cases hk : k = p.1
    · subst hk
      rw [mapLookup_mapSet_self]
      rfl
    · rw [mapLookup_mapSet_ne _ _ _ _ hk]
      exact h

theorem mapLookup_foldl_mapSet_mem (ps : List (String × String)) :
    ∀ (m : List (String × String)) (k : String), k ∈ ps.map Prod.fst →
      (mapLookup (ps.foldl (fun m p => mapSet m p.1 p.2) m) k).isSome = true := by
  induction ps with
  | nil =>
    intro m k h
    simp at h
  | cons p ps ih =>
    intro m k h
    rw [List.foldl_cons]
    rw [List.map_cons] at h
    rcases List.mem_cons.mp h with rfl | hmem
    · refine mapLookup_foldl_mapSet_isSome ps _ p.1 ?_
      rw [mapLookup_mapSet_self]
      rfl
    · exact ih _ k hmem

/-! ## Lemmas about the batch chunking -/

theorem chunkGo_fuel :
    ∀ (f1 : Nat) (l : List (String × List String)) (f2 : Nat),
      l.length ≤ f1 → l.length ≤ f2 → chunkGo f1 l = chunkGo f2 l := by
  intro f1
  induction f1 with
  | zero =>
    intro l f2 h1 _
    have : l = [] := List.length_eq_zero.mp (Nat.le_zero.mp h1)
    subst this
    cases f2 <;> simp [chunkGo]
  | succ f1' ih =>
    intro l f2 h1 h2
    cases l with
    | nil => cases f2 <;> simp [chunkGo]
    | cons x xs =>
      cases f2 with
      | zero => simp at h2
      | succ f2' =>
        show (x :: xs).take BATCH_SIZE :: chunkGo f1' ((x :: xs).drop BATCH_SIZE)
          = (x :: xs).take BATCH_SIZE :: chunkGo f2' ((x :: xs).drop BATCH_SIZE)
        congr 1
        refine ih _ f2' ?_ ?_ <;>
        · simp only [List.length_drop, List.length_cons, BATCH_SIZE] at *
          omega

theorem chunkEntries_cons (x : String × List String) (xs : List (String × List String)) :
    chunkEntries (x :: xs)
      = (x :: xs).take BATCH_SIZE :: chunkEntries ((x :: xs).drop BATCH_SIZE) := by
  show (x :: xs).take BATCH_SIZE :: chunkGo xs.length ((x :: xs).drop BATCH_SIZE) = _
  rw [chunkEntries]
  congr 1
  refine chunkGo_fuel xs.length ((x :: xs).drop BATCH_SIZE)
    ((x :: xs).drop BATCH_SIZE).length ?_ le_rfl
  simp only [List.length_drop, List.length_cons, BATCH_SIZE]
  omega

theorem chunkEntries_length :
    ∀ (n : Nat) (l : List (String × List String)), l.length ≤ n →
      (chunkEntries l).length = (l.length + (BATCH_SIZE - 1)) / BATCH_SIZE := by
  intro n
  induction n with
  | zero =>
    intro l h
    have : l = [] := List.length_eq_zero.mp (Nat.le_zero.mp h)
    subst this
    simp [chunkEntries, chunkGo, BATCH_SIZE]
  | succ n ih =>
    intro l h
    cases l with
    | nil => simp [chunkEntries, chunkGo, BATCH_SIZE]
    | cons x xs =>
      rw [chunkEntries_cons, List.length_cons,
        ih _ (by simp only [List.length_drop, List.length_cons, BATCH_SIZE] at h ⊢; omega)]
      simp only [List.length_drop, List.length_cons, BATCH_SIZE] at h ⊢
      omega

theorem chunkEntries_getElem? :
    ∀ (n : Nat) (l : List (String × List String)), l.length ≤ n →
      ∀ i : Nat, i < (chunkEntries l).length →
        (chunkEntries l)[i]? = some ((l.drop (BATCH_SIZE * i)).take BATCH_SIZE) := by
  intro n
  induction n with
  | zero =>
    intro l h i hi
    have : l = [] := List.length_eq_zero.mp (Nat.le_zero.mp h)
    subst this
    simp [chunkEntries, chunkGo] at hi
  | succ n ih =>
    intro l h i hi
    cases l with
    | nil => simp [chunkEntries, chunkGo] at hi
    | cons x xs =>
      rw [chunkEntries_cons] at hi ⊢
      cases i with
      | zero => simp
      | succ i' =>
        rw [List.getElem?_cons_succ,
          ih _ (by simp only [List.length_drop, List.length_cons, BATCH_SIZE] at h ⊢; omega)
            i' (by simpa using hi),
          List.drop_drop]
        congr 3
        ring

theorem chunkEntries_get (l : List (String × List String)) (i : Nat)
    (hi : i < (chunkEntries l).length) :
    (chunkEntries l).get ⟨i, hi⟩ = (l.drop (BATCH_SIZE * i)).take BATCH_SIZE := by
  have h1 := chunkEntries_getElem? l.length l le_rfl i hi
  rw [List.getElem?_eq_getElem hi] at h1
  rw [List.get_eq_getElem]
  exact Option.some.inj h1

theorem chunkEntries_full_size (l : List (String × List String)) (i : Nat)
    (hi : i + 1 < (chunkEntries l).length) :
    ((chunkEntries l).get ⟨i, Nat.lt_of_succ_lt hi⟩).length = BATCH_SIZE := by
  rw [chunkEntries_get l i (Nat.lt_of_succ_lt hi)]
  have hlen := chunkEntries_length l.length l le_rfl
  rw [hlen] at hi
  have hB : BATCH_SIZE = 40 := rfl
  rw [List.length_take, List.length_drop]
  rw [hB] at hi ⊢
  omega

theorem chunkEntries_flatten :
    ∀ (n : Nat) (l : List (String × List String)), l.length ≤ n →
      (chunkEntries l).flatten = l := by
  intro n
  induction n with
  | zero =>
    intro l h
    have : l = [] := List.length_eq_zero.mp (Nat.le_zero.mp h)
    subst this
    simp [chunkEntries, chunkGo]
  | succ n ih =>
    intro l h
    cases l with
    | nil => simp [chunkEntries, chunkGo]
    | cons x xs =>
      rw [chunkEntries_cons, List.flatten_cons,
        ih _ (by simp only [List.length_drop, List.length_cons, BATCH_SIZE] at h ⊢; omega),
        List.take_append_drop]

/-- When the first attempt of a batch yields a parsed array of the right
length, `translateBatch` returns the zipped batch table after one call and
no backoff wait. -/
theorem translateBatch_first_attempt_ok (oracle : Nat → AttemptOutcome)
    (texts trl : List String) (hor : oracle 0 = .parsed trl)
    (hlen : trl.length = texts.length) :
    translateBatch oracle texts = ⟨.ok (texts.zip trl), 1, []⟩ := by
  have hab : attemptBatch texts (oracle 0) = .ok (texts.zip trl) := by
    rw [hor, attemptBatch]
    simp [hlen]
  simp [translateBatch, translateBatchLoop, hab]

theorem processBatches_ok (oracle : Nat → Nat → AttemptOutcome) (total : Nat)
    (bs : List TranslationBatch) :
    ∀ (bi : Nat) (translations : List (String × String)) (completed : Nat),
      (∀ b (hb : b < bs.length),
        ∃ trl, oracle (bi + b) 0 = .parsed trl ∧ trl.length = (bs.get ⟨b, hb⟩).texts.length) →
      ∃ table,
        (processBatches oracle total bs bi translations completed).result = .ok table
        ∧ (processBatches oracle total bs bi translations completed).calls = bs.length
        ∧ (∀ k, (mapLookup translations k).isSome = true → (mapLookup table k).isSome = true)
        ∧ (∀ k b, b ∈ bs → k ∈ b.texts → (mapLookup table k).isSome = true) := by
  induction bs with
  | nil =>
    intro bi translations completed _
    exact ⟨translations, rfl, rfl, fun k h => h, fun k b hb => absurd hb (by simp)⟩
  | cons b rest ih =>
    intro bi translations completed h
    obtain ⟨trl, hor, hlen⟩ := h 0 (by simp)
    rw [Nat.add_zero] at hor
    have htb : translateBatch (oracle bi) b.texts = ⟨.ok (b.texts.zip trl), 1, []⟩ :=
      translateBatch_first_attempt_ok (oracle bi) b.texts trl hor
        (by simpa using hlen)
    have htb' : (translateBatch (oracle bi) b.texts).result = .ok (b.texts.zip trl) := by
      rw [htb]
    obtain ⟨table, hres, hcalls, hmono, hbatch⟩ := ih (bi + 1)
      ((b.texts.zip trl).foldl (fun m p => mapSet m p.1 p.2) translations)
      (completed + b.texts.length)
      (fun b' hb' => by
        obtain ⟨trl', hor', hlen'⟩ := h (b' + 1) (by simpa using Nat.succ_lt_succ hb')
        exact ⟨trl', by rwa [show bi + 1 + b' = bi + (b' + 1) by omega], hlen'⟩)
    refine ⟨table, ?_, ?_, ?_, ?_⟩
    · rw [processBatches]
      simp only [htb']
      exact hres
    · rw [processBatches]
      simp only [htb']
      rw [show (translateBatch (oracle bi) b.texts).attempts = 1 by rw [htb]]
      rw [hcalls]
      simp only [List.length_cons]
      omega
    · intro k hk
      refine hmono k ?_
      exact mapLookup_foldl_mapSet_isSome _ _ _ hk
    · intro k b' hb' hkb
      rcases List.mem_cons.mp hb' with rfl | hb'
      · refine hmono k (mapLookup_foldl_mapSet_mem _ _ _ ?_)
        rw [List.map_fst_zip _ _ (Nat.le_of_eq (by simpa using hlen.symm))]
        exact hkb
      · exact hbatch k b' hb' hkb

/-- Claim C4: for N glossary misses and batch size 40, `translateTexts`
issues exactly `ceil(N / 40)` provider calls (when every batch's first call
succeeds), batch `i` holds exactly the miss texts of positions
`[i*40, (i+1)*40)` in miss order, every batch but possibly the last holds
exactly 40 texts, and the final merged table has an entry for every input
text, misses and glossary hits alike. -/
theorem c4_batching (texts : List (String × List String))
    (glossary : List (String × String)) (oracle : Nat → Nat → AttemptOutcome)
    (hsucc : ∀ b (hb : b < (mkBatches (remainingEntries glossary texts)).length),
      ∃ trl, oracle b 0 = .parsed trl
        ∧ trl.length
          = ((mkBatches (remainingEntries glossary texts)).get ⟨b, hb⟩).texts.length) :
    (mkBatches (remainingEntries glossary texts)).length
        = ((remainingEntries glossary texts).length + (BATCH_SIZE - 1)) / BATCH_SIZE
    ∧ (translateTexts texts glossary oracle).calls
        = ((remainingEntries glossary texts).length + (BATCH_SIZE - 1)) / BATCH_SIZE
    ∧ (∀ i (hi : i < (mkBatches (remainingEntries glossary texts)).length),
        ((mkBatches (remainingEntries glossary texts)).get ⟨i, hi⟩).texts
          = (((remainingEntries glossary texts).drop (BATCH_SIZE * i)).take BATCH_SIZE).map
              Prod.fst)
    ∧ (∀ i (hi : i + 1 < (mkBatches (remainingEntries glossary texts)).length),
        ((mkBatches (remainingEntries glossary texts)).get
            ⟨i, Nat.lt_of_succ_lt hi⟩).texts.length = BATCH_SIZE)
    ∧ ∃ table, (translateTexts texts glossary oracle).result = .ok table
        ∧ ∀ t ∈ texts, (mapLookup table t.1).isSome = true := by
  set rem := remainingEntries glossary texts with hremdef
  have hlenB : (mkBatches rem).length = (chunkEntries rem).length := by
    rw [mkBatches, List.length_map]
  have hceil : (chunkEntries rem).length = (rem.length + (BATCH_SIZE - 1)) / BATCH_SIZE :=
    chunkEntries_length rem.length rem le_rfl
  have hget : ∀ i (hi : i < (mkBatches rem).length),
      (mkBatches rem).get ⟨i, hi⟩
        = ⟨((rem.drop (BATCH_SIZE * i)).take BATCH_SIZE).map Prod.fst,
           ((rem.drop (BATCH_SIZE * i)).take BATCH_SIZE).map Prod.snd⟩ := by
    intro i hi
    have hi' : i < (chunkEntries rem).length := hlenB ▸ hi
    have h1 : (mkBatches rem)[i]?
        = some ⟨((rem.drop (BATCH_SIZE * i)).take BATCH_SIZE).map Prod.fst,
            ((rem.drop (BATCH_SIZE * i)).take BATCH_SIZE).map Prod.snd⟩ := by
      rw [mkBatches, List.getElem?_map, chunkEntries_getElem? rem.length rem le_rfl i hi']
      rfl
    rw [List.getElem?_eq_getElem hi] at h1
    rw [List.get_eq_getElem]
    exact Option.some.inj h1
  refine ⟨by rw [hlenB, hceil], ?hcalls, ?htexts, ?hsize, ?htable⟩
  case htexts =>
    intro i hi
    rw [hget i hi]
  case hsize =>
    intro i hi
    have hfull := chunkEntries_full_size rem i (by rw [← hlenB]; exact hi)
    rw [chunkEntries_get rem i (by rw [← hlenB]; exact Nat.lt_of_succ_lt hi)] at hfull
    rw [hget i (Nat.lt_of_succ_lt hi)]
    simpa using hfull
  case hcalls =>
    by_cases hrem : (rem.length == 0) = true
    · have hnil : rem = [] := List.length_eq_zero.mp (by simpa using hrem)
      rw [translateTexts]
      simp only [← hremdef, hrem, if_pos]
      rw [hnil]
      simp [BATCH_SIZE]
    · obtain ⟨table, hres, hcalls, hmono, hbatch⟩ :=
        processBatches_ok oracle texts.length (mkBatches rem) 0 (glossaryTable glossary texts)
          (texts.length - rem.length) (fun b hb => by simpa using hsucc b hb)
      rw [translateTexts]
      simp only [← hremdef, hrem, if_neg, Bool.false_eq_true, not_false_iff]
      rw [hcalls, hlenB, hceil]
  case htable =>
    by_cases hrem : (rem.length == 0) = true
    · have hnil : rem = [] := List.length_eq_zero.mp (by simpa using hrem)
      rw [translateTexts]
      simp only [← hremdef, hrem, if_pos]
      refine ⟨glossaryTable glossary texts, rfl, ?_⟩
      intro t ht
      have hfil : ∀ a ∈ texts,
          ¬((!(mapLookup (glossaryTable glossary texts) a.1).isSome) = true) := by
        have h0 : texts.filter
            (fun t => !(mapLookup (glossaryTable glossary texts) t.1).isSome) = [] := by
          rw [← remainingEntries, ← hremdef]
          exact hnil
        exact List.filter_eq_nil_iff.mp h0
      have := hfil t ht
      simp only [Bool.not_eq_true', Bool.not_eq_false] at this
      exact this
    · obtain ⟨table, hres, hcalls, hmono, hbatch⟩ :=
        processBatches_ok oracle texts.length (mkBatches rem) 0 (glossaryTable glossary texts)
          (texts.length - rem.length) (fun b hb => by simpa using hsucc b hb)
      rw [translateTexts]
      simp only [← hremdef, hrem, if_neg, Bool.false_eq_true, not_false_iff]
      refine ⟨table, hres, ?_⟩
      intro t ht
      by_cases hg : (mapLookup (glossaryTable glossary texts) t.1).isSome = true
      · exact hmono t.1 hg
      · have htrem : t ∈ rem := by
          rw [hremdef, remainingEntries]
          refine List.mem_filter.mpr ⟨ht, ?_⟩
          simpa using hg
        have htfl : t ∈ (chunkEntries rem).flatten := by
          rw [chunkEntries_flatten rem.length rem le_rfl]
          exact htrem
        rcases List.mem_flatten.mp htfl with ⟨ch, hch, htc⟩
        refine hbatch t.1 ⟨ch.map Prod.fst, ch.map Prod.snd⟩ ?_ ?_
        · rw [mkBatches]
          exact List.mem_map.mpr ⟨ch, hch, rfl⟩
        · exact List.mem_map.mpr ⟨t, htc, rfl⟩

/-- Witness for C4: two miss entries with batch size 40 produce one provider
call whose merged table covers both inputs. -/
theorem c4_batching_witness :
    ∃ table, (translateTexts [("a", ["f"]), ("b", ["g"])] []
        (fun _ _ => .parsed ["A", "B"])).result = .ok table
      ∧ ∀ t ∈ [(("a" : String), ["f"]), ("b", ["g"])],
          (mapLookup table t.1).isSome = true :=
  (c4_batching [("a", ["f"]), ("b", ["g"])] [] (fun _ _ => .parsed ["A", "B"])
    (fun b hb => by
      rw [show (mkBatches (remainingEntries []
          [("a", ["f"]), ("b", ["g"])])).length = 1 from by decide] at hb
      interval_cases b
      exact ⟨["A", "B"], rfl, rfl⟩)).2.2.2.2

/-! ## Glossary-resolution claim (C6) -/

theorem glossaryLoop_lookup (glossary : List (String × String)) :
    ∀ (rest : List (String × List String)) (tr : List (String × String))
      (k v : String),
      mapLookup glossary k = some v → v ≠ "" →
      (mapLookup tr k = some v ∨ (mapLookup tr k = none ∧ k ∈ rest.map Prod.fst)) →
      mapLookup (glossaryLoop glossary rest tr) k = some v := by
  intro rest
  induction rest with
  | nil =>
    intro tr k v hg hv h
    rcases h with h | ⟨_, h2⟩
    · exact h
    · simp at h2
  | cons item rest ih =>
    intro tr k v hg hv h
    rw [glossaryLoop]
    cases hit : mapLookup glossary item.1 with
    | none =>
      refine ih tr k v hg hv ?_
      rcases h with h | ⟨h1, h2⟩
      · exact Or.inl h
      · refine Or.inr ⟨h1, ?_⟩
        rw [List.map_cons] at h2
        rcases List.mem_cons.mp h2 with rfl | h2
        · rw [hit] at hg
          exact Option.noConfusion hg
        · exact h2
    | some w =>
      have hred : mapLookup
          (match some w with
            | some v =>
              if (v == "") = true then glossaryLoop glossary rest tr
              else glossaryLoop glossary rest (mapSet tr item.1 v)
            | none => glossaryLoop glossary rest tr) k
          = mapLookup (if (w == "") = true then glossaryLoop glossary rest tr
              else glossaryLoop glossary rest (mapSet tr item.1 w)) k := rfl
      by_cases hw : (w == "") = true
      · rw [hred, if_pos hw]
        refine ih tr k v hg hv ?_
        rcases h with h | ⟨h1, h2⟩
        · exact Or.inl h
        · refine Or.inr ⟨h1, ?_⟩
          rw [List.map_cons] at h2
          rcases List.mem_cons.mp h2 with rfl | h2
          · rw [hit] at hg
            have : w = v := Option.some.inj hg
            subst this
            exact absurd (by simpa using hw) hv
          · exact h2
      · rw [hred, if_neg hw]
        by_cases hk : k = item.1
        · subst hk
          have hwv : w = v := Option.some.inj (hit.symm.trans hg)
          exact ih (mapSet tr item.1 w) item.1 v hg hv
            (Or.inl (by rw [mapLookup_mapSet_self, hwv]))
        · refine ih _ k v hg hv ?_
          rw [mapLookup_mapSet_ne tr item.1 w k hk]
          rcases h with h | ⟨h1, h2⟩
          · exact Or.inl h
          · refine Or.inr ⟨h1, ?_⟩
            rw [List.map_cons] at h2
            rcases List.mem_cons.mp h2 with rfl | h2
            · exact absurd rfl hk
            · exact h2

/-- Every glossary value configured in the industries table is a non-empty
string, so each is truthy in the glossary pass. -/
theorem industries_glossary_values_nonempty :
    ∀ q ∈ industries, ∀ kv ∈ q.glossary, kv.2 ≠ "" := by
  decide

/-- Claim C6: glossary resolution is an exact whole-string lookup — on the
configured profiles every hit fills the table with the glossary value
without a provider call, and if every input entry is a hit,
`translateTexts` makes zero provider calls, reports
`onProgress(total, total)`, and returns the table of glossary values. -/
theorem c6_glossary_resolution (p : IndustryConfig) (hp : p ∈ industries)
    (texts : List (String × List String)) (oracle : Nat → Nat → AttemptOutcome)
    (hall : ∀ t ∈ texts, (mapLookup p.glossary t.1).isSome = true) :
    (translateTexts texts p.glossary oracle).calls = 0
    ∧ (translateTexts texts p.glossary oracle).progress = [(texts.length, texts.length)]
    ∧ ∃ table, (translateTexts texts p.glossary oracle).result = .ok table
        ∧ ∀ t ∈ texts, mapLookup table t.1 = mapLookup p.glossary t.1 := by
  have htab : ∀ t ∈ texts,
      mapLookup (glossaryTable p.glossary texts) t.1 = mapLookup p.glossary t.1 := by
    intro t ht
    obtain ⟨v, hv⟩ := Option.isSome_iff_exists.mp (hall t ht)
    have hpair : ∃ pr, List.find? (fun q => q.1 == t.1) p.glossary = some pr ∧ pr.2 = v := by
      rw [mapLookup] at hv
      cases hf : List.find? (fun q => q.1 == t.1) p.glossary with
      | none => rw [hf] at hv; exact Option.noConfusion hv
      | some pr =>
        rw [hf] at hv
        exact ⟨pr, rfl, Option.some.inj hv⟩
    obtain ⟨pr, hfind, hprv⟩ := hpair
    have hmem : pr ∈ p.glossary := List.mem_of_find?_eq_some hfind
    have hvne : v ≠ "" := hprv ▸ industries_glossary_values_nonempty p hp pr hmem
    rw [hv, glossaryTable]
    exact glossaryLoop_lookup p.glossary texts [] t.1 v hv hvne
      (Or.inr ⟨rfl, List.mem_map.mpr ⟨t, ht, rfl⟩⟩)
  have hremnil : remainingEntries p.glossary texts = [] := by
    rw [remainingEntries]
    refine List.filter_eq_nil_iff.mpr ?_
    intro t ht
    rw [htab t ht]
    obtain ⟨v, hv⟩ := Option.isSome_iff_exists.mp (hall t ht)
    simp [hv]
  rw [translateTexts]
  simp only [hremnil, List.length_nil, if_pos]
  exact ⟨rfl, rfl, glossaryTable p.glossary texts, rfl, htab⟩

/-- Witness for C6: a single entry that hits the luxury profile's glossary
is resolved with zero provider calls. -/
theorem c6_glossary_resolution_witness :
    (translateTexts [("Бижута", ["category"])]
        (industries.get ⟨0, by decide⟩).glossary (fun _ _ => .nonText)).calls = 0 :=
  (c6_glossary_resolution (industries.get ⟨0, by decide⟩)
    (List.get_mem industries 0 (by decide)) [("Бижута", ["category"])]
    (fun _ _ => .nonText)
    (fun t ht => by
      rcases List.mem_singleton.mp ht with rfl
      rfl)).1

/-! ## Streaming-endpoint claim (C2) -/

/-- Claim C2 (refuting evidence): on the zero-items path the handler calls
`controller.close()` twice (route.ts lines 78 and 134).  The second call
throws from the `finally` block and, whenever the event queue has not yet
drained, errors the stream: the queued terminal error event is discarded,
the consumer receives only the two status events, and the channel ends
errored, not closed.  Only when the queue happened to drain first does the
same request deliver all events on a closed channel — so the code does not
guarantee exactly one delivered terminal event and a closed channel.  The
provider-failure path, by contrast, closes exactly once. -/
theorem c2_double_close_discards_terminal_event :
    (POST ⟨⟨some "<products/>", some "custom", some "bg", some "en", some "key", none⟩,
        [], fun _ _ => .nonText⟩).closeCalls = 2
    ∧ streamOutcome (POST ⟨⟨some "<products/>", some "custom", some "bg", some "en",
          some "key", none⟩, [], fun _ _ => .nonText⟩) 1
        = ([.status "Reading XML feed...", .status "Parsing feed structure..."],
           .errored)
    ∧ (∀ e ∈ (streamOutcome (POST ⟨⟨some "<products/>", some "custom", some "bg",
          some "en", some "key", none⟩, [], fun _ _ => .nonText⟩) 1).1,
        e.isTerminal = false)
    ∧ streamOutcome (POST ⟨⟨some "<products/>", some "custom", some "bg", some "en",
          some "key", none⟩, [], fun _ _ => .nonText⟩) 0
        = ([.status "Reading XML feed...", .status "Parsing feed structure...",
            .error "No translatable content found. The feed may already be translated or the source language is incorrect."],
           .closed)
    ∧ (POST ⟨⟨some "<products/>", some "custom", some "bg", some "en", some "key", none⟩,
        [⟨"p", "Текст", "title", "1", "t"⟩], fun _ _ => .apiError "down"⟩).closeCalls
        = 1 := by
  refine ⟨rfl, by decide, by decide, by decide, rfl⟩

end FeedTranslator
